import Mathlib

/-!
Shallow embedding of the path-simulation engine of
`SimulationOfStochasticVolatilityModels_with_answers.ipynb`
(Black-Scholes and Heston models with the naive, absorption and
full-truncation discretization schemes, the correlation-measurement
decorator, and the Monte Carlo call pricer).

Modelling conventions:
* Python floats are modelled by `ℝ`.
* `math.sqrt` and `math.log` raise domain errors on invalid input, and
  Python float division raises `ZeroDivisionError` on a zero denominator;
  these are modelled by `Option`-valued functions (`none` = the exception).
* The instance state mutated by the code (the absorption scheme's
  `number_of_negative_variances` counter, the diagnostics moments and the
  lifetime average correlation) is threaded explicitly through the
  functions.
* The global normal generator `sc.randn()` is modelled by passing the
  sequence of draws consumed by a run explicitly: one pair
  `(randn_vol, second draw for randn_spot)` per time step, so a path with
  `num_steps` steps is driven by a list of length `num_steps`.
-/

namespace AIMS2018

/-- Model of `math.sqrt`: a domain error (`none`) on negative input,
otherwise the real square root. -/
noncomputable def msqrt (x : ℝ) : Option ℝ :=
  if 0 ≤ x then some (Real.sqrt x) else none

/-- Model of `math.log`: a domain error (`none`) on non-positive input,
otherwise the real logarithm. -/
noncomputable def mlog (x : ℝ) : Option ℝ :=
  if 0 < x then some (Real.log x) else none

/-- Model of Python float division: `ZeroDivisionError` (`none`) when the
denominator is zero. -/
noncomputable def mdiv (a b : ℝ) : Option ℝ :=
  if b = 0 then none else some (a / b)

/-- Parameters stored by `BlackScholes.__init__`. -/
structure BlackScholesParams where
  mu : ℝ
  vol : ℝ

/-- `BlackScholes.__init__(mu, vol)`: stores the two parameters; the code
performs no validation. -/
def BlackScholes.init (mu vol : ℝ) : BlackScholesParams := ⟨mu, vol⟩

/-- Parameters stored by `Heston.__init__`. -/
structure HestonParams where
  mu : ℝ
  kappa : ℝ
  theta : ℝ
  omega : ℝ
  rho : ℝ
  initial_variance : ℝ

/-- `Heston.__init__(mu, kappa, theta, omega, rho, initial_variance)`:
stores the six parameters; the code performs no validation. -/
def Heston.init (mu kappa theta omega rho initial_variance : ℝ) : HestonParams :=
  ⟨mu, kappa, theta, omega, rho, initial_variance⟩

/-- `Heston_Absorption.__init__`: the parent constructor plus the
zero-initialized `number_of_negative_variances` counter. -/
def Heston_Absorption.init (mu kappa theta omega rho initial_variance : ℝ) :
    HestonParams × ℕ :=
  (⟨mu, kappa, theta, omega, rho, initial_variance⟩, 0)

/-- `Heston._simulate_variance_next_step` (the naive, unprotected scheme):
`(1 - κ·dt)·V + κ·dt·θ + ω·√(V·dt)·z`; the square root domain-errors when
`V·dt < 0`. -/
noncomputable def Heston.varStep (p : HestonParams) (var_prev dt randn : ℝ) :
    Option ℝ :=
  (msqrt (var_prev * dt)).map fun s =>
    (1 - p.kappa * dt) * var_prev + p.kappa * dt * p.theta + p.omega * s * randn

/-- `Heston._simulate_log_asset_next_step` (also inherited unchanged by
`Heston_Absorption`): `L + (μ - 0.5·V)·dt + √(V·dt)·z` with the raw,
unclamped previous variance `V`. -/
noncomputable def Heston.logAssetStep (p : HestonParams)
    (log_asset_prev var_prev dt randn : ℝ) : Option ℝ :=
  (msqrt (var_prev * dt)).map fun s =>
    log_asset_prev + ((p.mu - 0.5 * var_prev) * dt + s * randn)

/-- `Heston_Absorption._simulate_variance_next_step`: first increments the
`number_of_negative_variances` counter whenever `var_prev > 0.0` (this is
the condition the code actually tests), then floors the previous variance,
applies the Euler update to the floored value and floors the result again.
Returns the new variance together with the updated counter. -/
noncomputable def Heston_Absorption.varStep (p : HestonParams) (counter : ℕ)
    (var_prev dt randn : ℝ) : Option (ℝ × ℕ) :=
  let counter' := if 0 < var_prev then counter + 1 else counter
  let adj := max var_prev 0
  (msqrt (adj * dt)).map fun s =>
    (max ((1 - p.kappa * dt) * adj + p.kappa * dt * p.theta + p.omega * s * randn) 0,
     counter')

/-- `Heston_Full_Truncation._simulate_variance_next_step`:
`V - κ·dt·(max(V,0) - θ) + ω·√(max(V,0)·dt)·z`; the update is applied to
the unclamped `V`, the clamp only enters the drift and diffusion terms. -/
noncomputable def Heston_Full_Truncation.varStep (p : HestonParams)
    (var_prev dt randn : ℝ) : Option ℝ :=
  let adj := max var_prev 0
  (msqrt (adj * dt)).map fun s =>
    var_prev - p.kappa * dt * (adj - p.theta) + p.omega * s * randn

/-- `Heston_Full_Truncation._simulate_log_asset_next_step`:
`L + (μ - 0.5·max(V,0))·dt + √(max(V,0)·dt)·z`. -/
noncomputable def Heston_Full_Truncation.logAssetStep (p : HestonParams)
    (log_asset_prev var_prev dt randn : ℝ) : Option ℝ :=
  let adj := max var_prev 0
  (msqrt (adj * dt)).map fun s =>
    log_asset_prev + ((p.mu - 0.5 * adj) * dt + s * randn)

/-- The correlated spot draw `rho * randn_vol + sqrt(1 - rho^2) * randn2`
computed inside every `simulate_stock` loop; the square root domain-errors
when `|rho| > 1`. -/
noncomputable def corrDraw (rho z1 z2 : ℝ) : Option ℝ :=
  (msqrt (1 - rho * rho)).map fun s => rho * z1 + s * z2

/-- One iteration of `Heston.simulate_stock`'s loop: draw the correlated
spot draw, step the variance (naive scheme), step the log asset from the
previous variance, and carry `(log_asset, variance)` forward. -/
noncomputable def Heston.runStep (p : HestonParams) (dt : ℝ) (st : ℝ × ℝ)
    (z : ℝ × ℝ) : Option (ℝ × ℝ) := do
  let zSpot ← corrDraw p.rho z.1 z.2
  let varNext ← Heston.varStep p st.2 dt z.1
  let logNext ← Heston.logAssetStep p st.1 st.2 dt zSpot
  pure (logNext, varNext)

/-- `Heston.simulate_stock(spot, maturity, num_steps)` driven by one draw
pair per step (`num_steps = draws.length`); `num_steps = 0` raises
(`ZeroDivisionError` computing `dt`, then an unbound `log_asset_next`). -/
noncomputable def Heston.simulate_stock (p : HestonParams) (spot maturity : ℝ)
    (draws : List (ℝ × ℝ)) : Option ℝ :=
  if draws.isEmpty then none
  else do
    let dt := maturity / (draws.length : ℝ)
    let l0 ← mlog spot
    let st ← List.foldlM (Heston.runStep p dt) (l0, p.initial_variance) draws
    pure (Real.exp st.1)

/-- One iteration of the loop as executed by a `Heston_Absorption`
instance: the state also carries the `number_of_negative_variances`
counter; the log-asset step is the inherited (unclamped) one. -/
noncomputable def Heston_Absorption.runStep (p : HestonParams) (dt : ℝ)
    (st : ℝ × ℝ × ℕ) (z : ℝ × ℝ) : Option (ℝ × ℝ × ℕ) := do
  let zSpot ← corrDraw p.rho z.1 z.2
  let vc ← Heston_Absorption.varStep p st.2.2 st.2.1 dt z.1
  let logNext ← Heston.logAssetStep p st.1 st.2.1 dt zSpot
  pure (logNext, vc.1, vc.2)

/-- `simulate_stock` as executed by a `Heston_Absorption` instance whose
counter currently reads `counter`; returns the terminal asset value and
the counter after the run. -/
noncomputable def Heston_Absorption.simulate_stock (p : HestonParams)
    (counter : ℕ) (spot maturity : ℝ) (draws : List (ℝ × ℝ)) :
    Option (ℝ × ℕ) :=
  if draws.isEmpty then none
  else do
    let dt := maturity / (draws.length : ℝ)
    let l0 ← mlog spot
    let st ← List.foldlM (Heston_Absorption.runStep p dt)
      (l0, p.initial_variance, counter) draws
    pure (Real.exp st.1, st.2.2)

/-- One iteration of the loop as executed by a `Heston_Full_Truncation`
instance: both overridden steps clamp only inside their terms. -/
noncomputable def Heston_Full_Truncation.runStep (p : HestonParams) (dt : ℝ)
    (st : ℝ × ℝ) (z : ℝ × ℝ) : Option (ℝ × ℝ) := do
  let zSpot ← corrDraw p.rho z.1 z.2
  let varNext ← Heston_Full_Truncation.varStep p st.2 dt z.1
  let logNext ← Heston_Full_Truncation.logAssetStep p st.1 st.2 dt zSpot
  pure (logNext, varNext)

/-- `simulate_stock` as executed by a `Heston_Full_Truncation` instance. -/
noncomputable def Heston_Full_Truncation.simulate_stock (p : HestonParams)
    (spot maturity : ℝ) (draws : List (ℝ × ℝ)) : Option ℝ :=
  if draws.isEmpty then none
  else do
    let dt := maturity / (draws.length : ℝ)
    let l0 ← mlog spot
    let st ← List.foldlM (Heston_Full_Truncation.runStep p dt)
      (l0, p.initial_variance) draws
    pure (Real.exp st.1)

/-- The per-path moment accumulators of
`Heston_Full_Truncation_With_Correlation_Measurement`. -/
structure Stats where
  log_asset_incr_first_mom : ℝ
  log_asset_incr_second_mom : ℝ
  var_incr_first_mom : ℝ
  var_incr_second_mom : ℝ
  cross_first_mom : ℝ

/-- `_clear_statistics`: all five accumulators reset to `0.0`. -/
def clearStatistics : Stats := ⟨0, 0, 0, 0, 0⟩

/-- `_update_statistics(asset_incr, var_incr, num_steps)`: each moment is
advanced by the `1/num_steps`-weighted contribution of this step. -/
noncomputable def updateStatistics (st : Stats) (asset_incr var_incr : ℝ)
    (num_steps : ℕ) : Stats :=
  ⟨st.log_asset_incr_first_mom + 1 / (num_steps : ℝ) * asset_incr,
   st.log_asset_incr_second_mom + 1 / (num_steps : ℝ) * asset_incr * asset_incr,
   st.var_incr_first_mom + 1 / (num_steps : ℝ) * var_incr,
   st.var_incr_second_mom + 1 / (num_steps : ℝ) * var_incr * var_incr,
   st.cross_first_mom + 1 / (num_steps : ℝ) * asset_incr * var_incr⟩

/-- The value computed by `_calculate_correlation` (aside from its
increment of `num_paths`, threaded by the caller below): the two increment
standard deviations and `cov / (stdev · stdev)`; Python raises
`ZeroDivisionError` when either standard deviation is zero. -/
noncomputable def calculateCorrelation (st : Stats) : Option ℝ := do
  let asset_incr_stdev ← msqrt (st.log_asset_incr_second_mom -
    st.log_asset_incr_first_mom * st.log_asset_incr_first_mom)
  let var_incr_stdev ← msqrt (st.var_incr_second_mom -
    st.var_incr_first_mom * st.var_incr_first_mom)
  mdiv (st.cross_first_mom - st.log_asset_incr_first_mom * st.var_incr_first_mom)
    (asset_incr_stdev * var_incr_stdev)

/-- One iteration of
`Heston_Full_Truncation_With_Correlation_Measurement.simulate_stock`'s
loop: the full-truncation steps, followed by `_update_statistics` on the
two increments. -/
noncomputable def Heston_Full_Truncation_With_Correlation_Measurement.runStep
    (p : HestonParams) (dt : ℝ) (num_steps : ℕ) (st : (ℝ × ℝ) × Stats)
    (z : ℝ × ℝ) : Option ((ℝ × ℝ) × Stats) := do
  let zSpot ← corrDraw p.rho z.1 z.2
  let varNext ← Heston_Full_Truncation.varStep p st.1.2 dt z.1
  let logNext ← Heston_Full_Truncation.logAssetStep p st.1.1 st.1.2 dt zSpot
  pure ((logNext, varNext),
    updateStatistics st.2 (logNext - st.1.1) (varNext - st.1.2) num_steps)

/-- `Heston_Full_Truncation_With_Correlation_Measurement.simulate_stock`
for an instance whose lifetime state currently reads `num_paths` paths and
running average `avg_correlation`: clears the per-path statistics, runs
the full-truncation path while accumulating moments, computes the path's
realized correlation, folds it into the running average, and returns the
terminal asset value together with the updated `(num_paths,
avg_correlation)` state. -/
noncomputable def Heston_Full_Truncation_With_Correlation_Measurement.simulate_stock
    (p : HestonParams) (num_paths : ℕ) (avg_correlation : ℝ)
    (spot maturity : ℝ) (draws : List (ℝ × ℝ)) : Option (ℝ × ℕ × ℝ) :=
  if draws.isEmpty then none
  else do
    let dt := maturity / (draws.length : ℝ)
    let l0 ← mlog spot
    let st ← List.foldlM
      (Heston_Full_Truncation_With_Correlation_Measurement.runStep p dt draws.length)
      ((l0, p.initial_variance), clearStatistics) draws
    let corr ← calculateCorrelation st.2
    let n := num_paths + 1
    let avg := (avg_correlation * ((n : ℝ) - 1) + corr) / (n : ℝ)
    pure (Real.exp st.1.1, n, avg)

/-- `np.average` on a list of floats. -/
noncomputable def average (xs : List ℝ) : ℝ := xs.sum / (xs.length : ℝ)

/-- `np.std` on a list of floats (population standard deviation, numpy's
default `ddof = 0`). -/
noncomputable def npStd (xs : List ℝ) : ℝ :=
  Real.sqrt (((xs.map fun x => (x - average xs) ^ 2).sum) / (xs.length : ℝ))

/-- `price_call_option(model, spot, strike, maturity, num_steps,
num_paths)`, abstracted over the model: `sim` is the model's
`simulate_stock` applied to its per-path randomness, and `paths` carries
one randomness bundle per requested path (`num_paths = paths.length`).
Each realisation is `max(simulate_stock(...) - strike, 0.0)`; the result
is `(np.average(realisations), 1.0 / math.sqrt(num_paths) *
np.std(realisations))`, and the `1.0 / math.sqrt(num_paths)` factor
raises `ZeroDivisionError` when `num_paths = 0`. -/
noncomputable def price_call_option {α : Type} (sim : α → Option ℝ)
    (strike : ℝ) (paths : List α) : Option (ℝ × ℝ) := do
  let terminals ← paths.mapM sim
  let realisations := terminals.map fun t => max (t - strike) 0
  let invRoot ← mdiv 1 (Real.sqrt (paths.length : ℝ))
  pure (average realisations, invRoot * npStd realisations)

/-! ### Helper lemmas -/

lemma msqrt_of_nonneg {x : ℝ} (h : 0 ≤ x) : msqrt x = some (Real.sqrt x) := by
  simp [msqrt, h]

lemma msqrt_of_neg {x : ℝ} (h : x < 0) : msqrt x = none := by
  simp [msqrt, not_le.mpr h]

lemma corrDraw_of_abs_le {rho : ℝ} (h : |rho| ≤ 1) (z1 z2 : ℝ) :
    corrDraw rho z1 z2 = some (rho * z1 + Real.sqrt (1 - rho * rho) * z2) := by
  have h1 : 0 ≤ 1 - rho * rho := by
    have h2 := abs_le.mp h
    nlinarith [h2.1, h2.2]
  simp [corrDraw, msqrt_of_nonneg h1]

lemma absorption_varStep_eq (p : HestonParams) (c : ℕ) (v dt z : ℝ)
    (hdt : 0 ≤ dt) :
    Heston_Absorption.varStep p c v dt z =
      some (max ((1 - p.kappa * dt) * max v 0 + p.kappa * dt * p.theta +
          p.omega * Real.sqrt (max v 0 * dt) * z) 0,
        if 0 < v then c + 1 else c) := by
  simp [Heston_Absorption.varStep,
    msqrt_of_nonneg (mul_nonneg (le_max_right v 0) hdt)]

lemma absorption_varStep_counter_mono {p : HestonParams} {c : ℕ}
    {v dt z : ℝ} {r : ℝ × ℕ}
    (h : Heston_Absorption.varStep p c v dt z = some r) : c ≤ r.2 := by
  simp only [Heston_Absorption.varStep, Option.map_eq_some'] at h
  obtain ⟨s, -, hr⟩ := h
  rw [← hr]
  split_ifs
  · exact Nat.le_succ c
  · exact le_rfl

lemma absorption_runStep_counter_mono {p : HestonParams} {dt : ℝ}
    {st st' : ℝ × ℝ × ℕ} {z : ℝ × ℝ}
    (h : Heston_Absorption.runStep p dt st z = some st') :
    st.2.2 ≤ st'.2.2 := by
  simp only [Heston_Absorption.runStep, bind, Option.bind_eq_some,
    pure, Option.some.injEq] at h
  obtain ⟨zs, -, vc, hvc, ln, -, hst'⟩ := h
  have := absorption_varStep_counter_mono hvc
  rw [← hst']
  exact this

lemma absorption_foldlM_counter_mono {p : HestonParams} {dt : ℝ} :
    ∀ (draws : List (ℝ × ℝ)) (st st' : ℝ × ℝ × ℕ),
      List.foldlM (Heston_Absorption.runStep p dt) st draws = some st' →
      st.2.2 ≤ st'.2.2 := by
  intro draws
  induction draws with
  | nil =>
    intro st st' h
    simp only [List.foldlM_nil, pure, Option.some.injEq] at h
    rw [h]
  | cons z zs ih =>
    intro st st' h
    simp only [List.foldlM_cons, bind, Option.bind_eq_some] at h
    obtain ⟨st1, h1, h2⟩ := h
    exact le_trans (absorption_runStep_counter_mono h1) (ih st1 st' h2)

lemma absorption_runStep_safe {p : HestonParams} {dt : ℝ}
    (hdt : 0 ≤ dt) (hrho : |p.rho| ≤ 1) (st : ℝ × ℝ × ℕ) (z : ℝ × ℝ)
    (hv : 0 ≤ st.2.1) :
    ∃ st', Heston_Absorption.runStep p dt st z = some st' ∧ 0 ≤ st'.2.1 := by
  have hmax : max st.2.1 0 = st.2.1 := max_eq_left hv
  refine ⟨(st.1 + ((p.mu - 0.5 * st.2.1) * dt +
      Real.sqrt (st.2.1 * dt) * (p.rho * z.1 + Real.sqrt (1 - p.rho * p.rho) * z.2)),
    max ((1 - p.kappa * dt) * max st.2.1 0 + p.kappa * dt * p.theta +
      p.omega * Real.sqrt (max st.2.1 0 * dt) * z.1) 0,
    if 0 < st.2.1 then st.2.2 + 1 else st.2.2), ?_, le_max_right _ 0⟩
  rw [Heston_Absorption.runStep]
  rw [corrDraw_of_abs_le hrho, absorption_varStep_eq p st.2.2 st.2.1 dt z.1 hdt]
  simp only [bind, Option.some_bind, Heston.logAssetStep,
    msqrt_of_nonneg (mul_nonneg hv hdt), Option.map_some']
  rfl

lemma absorption_foldlM_safe {p : HestonParams} {dt : ℝ}
    (hdt : 0 ≤ dt) (hrho : |p.rho| ≤ 1) :
    ∀ (draws : List (ℝ × ℝ)) (st : ℝ × ℝ × ℕ), 0 ≤ st.2.1 →
      ∃ st', List.foldlM (Heston_Absorption.runStep p dt) st draws = some st' ∧
        0 ≤ st'.2.1 := by
  intro draws
  induction draws with
  | nil =>
    intro st hv
    exact ⟨st, by simp [List.foldlM_nil], hv⟩
  | cons z zs ih =>
    intro st hv
    obtain ⟨st1, h1, hv1⟩ := absorption_runStep_safe hdt hrho st z hv
    obtain ⟨st', h2, hv'⟩ := ih st1 hv1
    exact ⟨st', by simp only [List.foldlM_cons, bind, h1, Option.some_bind, h2], hv'⟩

lemma ft_varStep_eq (p : HestonParams) (v dt z : ℝ) (hdt : 0 ≤ dt) :
    Heston_Full_Truncation.varStep p v dt z =
      some (v - p.kappa * dt * (max v 0 - p.theta) +
        p.omega * Real.sqrt (max v 0 * dt) * z) := by
  simp [Heston_Full_Truncation.varStep,
    msqrt_of_nonneg (mul_nonneg (le_max_right v 0) hdt)]

lemma ft_logStep_eq (p : HestonParams) (l v dt z : ℝ) (hdt : 0 ≤ dt) :
    Heston_Full_Truncation.logAssetStep p l v dt z =
      some (l + ((p.mu - 0.5 * max v 0) * dt + Real.sqrt (max v 0 * dt) * z)) := by
  simp [Heston_Full_Truncation.logAssetStep,
    msqrt_of_nonneg (mul_nonneg (le_max_right v 0) hdt)]

lemma ft_runStep_some {p : HestonParams} {dt : ℝ}
    (hdt : 0 ≤ dt) (hrho : |p.rho| ≤ 1) (st : ℝ × ℝ) (z : ℝ × ℝ) :
    ∃ st', Heston_Full_Truncation.runStep p dt st z = some st' := by
  refine ⟨(st.1 + ((p.mu - 0.5 * max st.2 0) * dt + Real.sqrt (max st.2 0 * dt) *
      (p.rho * z.1 + Real.sqrt (1 - p.rho * p.rho) * z.2)),
    st.2 - p.kappa * dt * (max st.2 0 - p.theta) +
      p.omega * Real.sqrt (max st.2 0 * dt) * z.1), ?_⟩
  rw [Heston_Full_Truncation.runStep, corrDraw_of_abs_le hrho,
    ft_varStep_eq p st.2 dt z.1 hdt]
  simp only [bind, Option.some_bind, ft_logStep_eq p st.1 st.2 dt _ hdt]
  rfl

lemma ft_foldlM_some {p : HestonParams} {dt : ℝ}
    (hdt : 0 ≤ dt) (hrho : |p.rho| ≤ 1) :
    ∀ (draws : List (ℝ × ℝ)) (st : ℝ × ℝ),
      ∃ st', List.foldlM (Heston_Full_Truncation.runStep p dt) st draws =
        some st' := by
  intro draws
  induction draws with
  | nil => exact fun st => ⟨st, by simp [List.foldlM_nil]⟩
  | cons z zs ih =>
    intro st
    obtain ⟨st1, h1⟩ := ft_runStep_some hdt hrho st z
    obtain ⟨st', h2⟩ := ih st1
    exact ⟨st', by simp only [List.foldlM_cons, bind, h1, Option.some_bind, h2]⟩

/-! ### Claim theorems -/

/-- C5: for every step size `dt > 0` and draw `z`, the naive Heston
variance transition domain-errors exactly on negative pre-step variance,
and on non-negative pre-step variance returns the unclamped Euler value
`(1 - κ·dt)·V + κ·dt·θ + ω·√(V·dt)·z`. -/
theorem naive_variance_step_domain_error (p : HestonParams) (v dt z : ℝ)
    (hdt : 0 < dt) :
    (v < 0 → Heston.varStep p v dt z = none) ∧
    (0 ≤ v → Heston.varStep p v dt z =
      some ((1 - p.kappa * dt) * v + p.kappa * dt * p.theta +
        p.omega * Real.sqrt (v * dt) * z)) := by
  constructor
  · intro hv
    simp [Heston.varStep, msqrt_of_neg (mul_neg_of_neg_of_pos hv hdt)]
  · intro hv
    simp [Heston.varStep, msqrt_of_nonneg (mul_nonneg hv hdt.le)]

/-- Witness for C5 at `V = -1` (error) and `V = 1` (value), `dt = 1`. -/
theorem naive_variance_step_domain_error_witness :
    Heston.varStep ⟨0, 0, 0, 0, 0, 0⟩ (-1) 1 0 = none ∧
    Heston.varStep ⟨0, 0, 0, 0, 0, 0⟩ 1 1 0 =
      some ((1 - (0 : ℝ) * 1) * 1 + 0 * 1 * 0 + 0 * Real.sqrt (1 * 1) * 0) :=
  ⟨(naive_variance_step_domain_error ⟨0, 0, 0, 0, 0, 0⟩ (-1) 1 0 one_pos).1
      (by norm_num),
   (naive_variance_step_domain_error ⟨0, 0, 0, 0, 0, 0⟩ 1 1 0 one_pos).2
      (by norm_num)⟩

/-- C7: for every previous variance `V` (negative included), `dt ≥ 0` and
draw `z`, the full-truncation variance transition returns exactly
`V - κ·dt·(max(V,0) - θ) + ω·√(max(V,0)·dt)·z`: the update is applied to
the unclamped variance, the clamp enters only the drift/diffusion terms. -/
theorem full_truncation_variance_step_formula (p : HestonParams) (v dt z : ℝ)
    (hdt : 0 ≤ dt) :
    Heston_Full_Truncation.varStep p v dt z =
      some (v - p.kappa * dt * (max v 0 - p.theta) +
        p.omega * Real.sqrt (max v 0 * dt) * z) := by
  simp [Heston_Full_Truncation.varStep,
    msqrt_of_nonneg (mul_nonneg (le_max_right v 0) hdt)]

/-- Witness for C7 at the negative variance `V = -1`, `dt = 1`. -/
theorem full_truncation_variance_step_formula_witness :
    Heston_Full_Truncation.varStep ⟨0, 0, 0, 0, 0, 0⟩ (-1) 1 0 =
      some ((-1) - (0 : ℝ) * 1 * (max (-1) 0 - 0) +
        0 * Real.sqrt (max (-1) 0 * 1) * 0) :=
  full_truncation_variance_step_formula ⟨0, 0, 0, 0, 0, 0⟩ (-1) 1 0 (by norm_num)

/-- C1 (code-bug evidence): the absorption variance step increments the
`number_of_negative_variances` counter at a step whose raw pre-floor
updated variance is `1 ≥ 0` (here `κ = θ = ω = 0`, `V = dt = 1`, `z = 0`),
merely because the pre-step variance is positive; the claim (and the
counter's own name) say the counter must be left unchanged at such a
step. -/
theorem absorption_counter_increments_on_positive_variance :
    Heston_Absorption.varStep ⟨0, 0, 0, 0, 0, 0⟩ 0 1 1 0 = some (1, 1) := by
  have h : msqrt (1 : ℝ) = some (Real.sqrt 1) := msqrt_of_nonneg (by norm_num)
  simp [Heston_Absorption.varStep, h]

/-- C3 (counterexample): the absorption scheme inherits the base,
unclamped log-asset transition, so its per-step transition domain-errors
at a negative previous variance (`V = -1`, `dt = 1`) instead of clamping:
the variance half of the step clamps and succeeds, but the log-asset half
feeds the raw `V = -1` into `√(V·dt)`. -/
theorem absorption_log_asset_unclamped_cex :
    Heston_Absorption.runStep ⟨0, 0, 0, 0, 0, 0⟩ 1 (0, -1, 0) (0, 0) = none := by
  have hc : corrDraw (0 : ℝ) 0 0 = some 0 := by
    rw [corrDraw_of_abs_le (by norm_num)]
    simp
  have hv : msqrt (0 : ℝ) = some (Real.sqrt 0) := msqrt_of_nonneg le_rfl
  have hl : msqrt (-1 : ℝ) = none := msqrt_of_neg (by norm_num)
  simp [Heston_Absorption.runStep, Heston_Absorption.varStep,
    Heston.logAssetStep, hc, hv, hl]

/-- C3 (amended): the log-asset transition is
`L' = L + (μ - 0.5·V_used)·dt + √(V_used·dt)·z` where the full-truncation
override uses `V_used = max(V, 0)` and is total for every real `V` and
`dt ≥ 0`, while the base step — inherited unchanged by the absorption
scheme — uses the unclamped `V_used = V` and returns a value for
`V ≥ 0`, `dt ≥ 0`. -/
theorem log_asset_step_clamping_policy (p : HestonParams) (l v dt z : ℝ) :
    (0 ≤ dt → Heston_Full_Truncation.logAssetStep p l v dt z =
      some (l + ((p.mu - 0.5 * max v 0) * dt + Real.sqrt (max v 0 * dt) * z))) ∧
    (0 ≤ v → 0 ≤ dt → Heston.logAssetStep p l v dt z =
      some (l + ((p.mu - 0.5 * v) * dt + Real.sqrt (v * dt) * z))) := by
  constructor
  · intro hdt
    simp [Heston_Full_Truncation.logAssetStep,
      msqrt_of_nonneg (mul_nonneg (le_max_right v 0) hdt)]
  · intro hv hdt
    simp [Heston.logAssetStep, msqrt_of_nonneg (mul_nonneg hv hdt)]

/-- Witness for the amended C3: the full-truncation step at the negative
variance `V = -1`, and the base step at `V = 1`. -/
theorem log_asset_step_clamping_policy_witness :
    Heston_Full_Truncation.logAssetStep ⟨0, 0, 0, 0, 0, 0⟩ 0 (-1) 1 0 =
      some (0 + (((0 : ℝ) - 0.5 * max (-1) 0) * 1 +
        Real.sqrt (max (-1) 0 * 1) * 0)) ∧
    Heston.logAssetStep ⟨0, 0, 0, 0, 0, 0⟩ 0 1 1 0 =
      some (0 + (((0 : ℝ) - 0.5 * 1) * 1 + Real.sqrt (1 * 1) * 0)) :=
  ⟨(log_asset_step_clamping_policy ⟨0, 0, 0, 0, 0, 0⟩ 0 (-1) 1 0).1 (by norm_num),
   (log_asset_step_clamping_policy ⟨0, 0, 0, 0, 0, 0⟩ 0 1 1 0).2 (by norm_num)
     (by norm_num)⟩

/-- C4 (counterexample): construction does not fail on out-of-range
parameters — `BlackScholes` accepts `σ = -1` and `Heston` accepts
`ρ = 2`, storing them verbatim; the invalid `ρ` then surfaces later as a
downstream numerical domain error inside `simulate_stock`
(`√(1 - ρ²)` with `ρ = 2`). -/
theorem construction_no_validation_cex :
    (BlackScholes.init 0 (-1)).vol = -1 ∧
    (Heston.init 0.05 2 0.09 1 2 0.09).rho = 2 ∧
    Heston.simulate_stock (Heston.init 0.05 2 0.09 1 2 0.09) 100 5 [(0, 0)] =
      none := by
  refine ⟨rfl, rfl, ?_⟩
  have hc : corrDraw (2 : ℝ) 0 0 = none := by
    have : (1 : ℝ) - 2 * 2 < 0 := by norm_num
    simp [corrDraw, msqrt_of_neg this]
  have hl : mlog (100 : ℝ) = some (Real.log 100) := by
    simp [mlog]
  simp [Heston.simulate_stock, Heston.init, Heston.runStep, hc, hl]

/-- C4 (amended): every constructor succeeds on arbitrary (also
out-of-range) parameters and stores them verbatim, the absorption
constructor additionally zero-initializing its negative-variance
counter; no validation happens at construction. -/
theorem construction_stores_params_verbatim
    (mu vol kappa theta omega rho v0 : ℝ) :
    BlackScholes.init mu vol = ⟨mu, vol⟩ ∧
    Heston.init mu kappa theta omega rho v0 =
      ⟨mu, kappa, theta, omega, rho, v0⟩ ∧
    Heston_Absorption.init mu kappa theta omega rho v0 =
      (⟨mu, kappa, theta, omega, rho, v0⟩, 0) :=
  ⟨rfl, rfl, rfl⟩

/-- C2 (code-bug evidence): (a) over any successful `simulate_stock` run
the `number_of_negative_variances` counter never decreases; but (b) a
one-step absorption run with `ω = 0` (and `κ = θ = 0`, `V₀ = 1`,
`spot = maturity = 1`, draws `(0, 0)`) ends with the counter at `1`, not
`0`: the code counts every step whose pre-step variance is positive, so a
run on which a negative raw variance is theoretically impossible still
drives the counter up. -/
theorem absorption_counter_zero_omega_run :
    (∀ (p : HestonParams) (c : ℕ) (spot maturity : ℝ)
      (draws : List (ℝ × ℝ)) (r : ℝ × ℕ),
      Heston_Absorption.simulate_stock p c spot maturity draws = some r →
      c ≤ r.2) ∧
    Heston_Absorption.simulate_stock ⟨0, 0, 0, 0, 0, 1⟩ 0 1 1 [(0, 0)] =
      some (Real.exp (-0.5), 1) := by
  constructor
  · intro p c spot maturity draws r h
    rw [Heston_Absorption.simulate_stock] at h
    by_cases he : draws.isEmpty
    · rw [if_pos he] at h
      exact absurd h (by simp)
    · rw [if_neg he] at h
      simp only [bind, Option.bind_eq_some, pure, Option.some.injEq] at h
      obtain ⟨l0, hl0, st, hst, hr⟩ := h
      have hmono :=
        absorption_foldlM_counter_mono draws (l0, p.initial_variance, c) st hst
      rw [← hr]
      exact hmono
  · have m1 : max (1 : ℝ) 0 = 1 := max_eq_left (by norm_num)
    have h1 : msqrt (1 : ℝ) = some (Real.sqrt 1) := msqrt_of_nonneg zero_le_one
    have hc : corrDraw (0 : ℝ) 0 0 = some 0 := by
      rw [corrDraw_of_abs_le (by norm_num : |(0 : ℝ)| ≤ 1) 0 0]
      simp
    have hlog : mlog (1 : ℝ) = some 0 := by
      simp [mlog, Real.log_one]
    have hv : Heston_Absorption.varStep ⟨0, 0, 0, 0, 0, 1⟩ 0 1 1 0 =
        some (1, 1) := by
      rw [absorption_varStep_eq ⟨0, 0, 0, 0, 0, 1⟩ 0 1 1 0
        (by norm_num : (0 : ℝ) ≤ 1)]
      norm_num [m1]
    have hl : Heston.logAssetStep ⟨0, 0, 0, 0, 0, 1⟩ 0 1 1 0 =
        some (-0.5) := by
      simp only [Heston.logAssetStep, one_mul, h1, Option.map_some']
      norm_num
    rw [Heston_Absorption.simulate_stock]
    simp only [List.isEmpty_cons, Bool.false_eq_true, if_false,
      List.length_cons, List.length_nil, zero_add, Nat.cast_one, div_one,
      List.foldlM_cons, List.foldlM_nil, bind, hlog, Option.some_bind,
      Heston_Absorption.runStep, hc, hv, hl]
    rfl

/-- Witness for C2: the monotonicity conjunct applied to the concrete
`ω = 0` run whose success is the second conjunct. -/
theorem absorption_counter_zero_omega_run_witness :
    (0 : ℕ) ≤ ((Real.exp (-0.5), (1 : ℕ)) : ℝ × ℕ).2 :=
  absorption_counter_zero_omega_run.1 ⟨0, 0, 0, 0, 0, 1⟩ 0 1 1 [(0, 0)]
    (Real.exp (-0.5), 1) absorption_counter_zero_omega_run.2

/-- C6: for every model state with `V₀ ≥ 0`, `|ρ| ≤ 1`, `spot > 0`,
`maturity > 0` and at least one step, `simulate_stock` of the absorption
scheme and of the full-truncation scheme completes without a domain
error, and every successful absorption variance transition outputs a
non-negative variance. -/
theorem absorption_full_truncation_simulation_safe (p : HestonParams)
    (c : ℕ) (spot maturity : ℝ) (draws : List (ℝ × ℝ))
    (hV0 : 0 ≤ p.initial_variance) (hspot : 0 < spot) (hmat : 0 < maturity)
    (hne : draws ≠ []) (hrho : |p.rho| ≤ 1) :
    (Heston_Absorption.simulate_stock p c spot maturity draws).isSome ∧
    (Heston_Full_Truncation.simulate_stock p spot maturity draws).isSome ∧
    (∀ (c' : ℕ) (v dt z : ℝ) (r : ℝ × ℕ), 0 ≤ dt →
      Heston_Absorption.varStep p c' v dt z = some r → 0 ≤ r.1) := by
  have hlen : 0 < (draws.length : ℝ) := by
    have h0 : draws.length ≠ 0 := by
      simpa [List.length_eq_zero] using hne
    exact_mod_cast Nat.pos_of_ne_zero h0
  have hdt : 0 ≤ maturity / (draws.length : ℝ) := le_of_lt (div_pos hmat hlen)
  have hni : draws.isEmpty = false := by
    cases draws with
    | nil => exact absurd rfl hne
    | cons a l => rfl
  have hl : mlog spot = some (Real.log spot) := by simp [mlog, hspot]
  refine ⟨?_, ?_, ?_⟩
  · obtain ⟨st', hst', -⟩ := absorption_foldlM_safe hdt hrho draws
      (Real.log spot, p.initial_variance, c) hV0
    rw [Heston_Absorption.simulate_stock]
    simp only [hni, Bool.false_eq_true, if_false, bind, hl, Option.some_bind,
      hst', Option.isSome_some]
    rfl
  · obtain ⟨st', hst'⟩ := ft_foldlM_some hdt hrho draws
      (Real.log spot, p.initial_variance)
    rw [Heston_Full_Truncation.simulate_stock]
    simp only [hni, Bool.false_eq_true, if_false, bind, hl, Option.some_bind,
      hst', Option.isSome_some]
    rfl
  · intro c' v dt z r hdt' h
    rw [absorption_varStep_eq p c' v dt z hdt'] at h
    simp only [Option.some.injEq] at h
    rw [← h]
    exact le_max_right _ 0

/-- Witness for C6: both simulations complete on the one-step model with
`V₀ = 1`, `ρ = 0`, `spot = maturity = 1`. -/
theorem absorption_full_truncation_simulation_safe_witness :
    (Heston_Absorption.simulate_stock ⟨0, 0, 0, 0, 0, 1⟩ 0 1 1 [(0, 0)]).isSome ∧
    (Heston_Full_Truncation.simulate_stock ⟨0, 0, 0, 0, 0, 1⟩ 1 1 [(0, 0)]).isSome :=
  ⟨(absorption_full_truncation_simulation_safe ⟨0, 0, 0, 0, 0, 1⟩ 0 1 1 [(0, 0)]
      (by norm_num) (by norm_num) (by norm_num) (by simp) (by norm_num)).1,
   (absorption_full_truncation_simulation_safe ⟨0, 0, 0, 0, 0, 1⟩ 0 1 1 [(0, 0)]
      (by norm_num) (by norm_num) (by norm_num) (by simp) (by norm_num)).2.1⟩

/-- C8: for every model (`sim` is its `simulate_stock` on one path's
randomness) and at least one path, `price_call_option` maps the payoff
`max(terminal - strike, 0)` over the simulated terminal values and
returns the pair (sample mean, `np.std` of the payoffs divided by
`√num_paths`). -/
theorem price_call_option_mean_stderr {α : Type} (sim : α → Option ℝ)
    (strike : ℝ) (paths : List α) (terminals : List ℝ)
    (hne : paths ≠ []) (hsim : paths.mapM sim = some terminals) :
    price_call_option sim strike paths =
      some (average (terminals.map fun t => max (t - strike) 0),
        1 / Real.sqrt (paths.length : ℝ) *
          npStd (terminals.map fun t => max (t - strike) 0)) := by
  have hlen : (0 : ℝ) < (paths.length : ℝ) := by
    have h0 : paths.length ≠ 0 := by
      simpa [List.length_eq_zero] using hne
    exact_mod_cast Nat.pos_of_ne_zero h0
  have hs : Real.sqrt (paths.length : ℝ) ≠ 0 :=
    ne_of_gt (Real.sqrt_pos.mpr hlen)
  rw [price_call_option]
  simp only [bind, hsim, Option.some_bind, mdiv, if_neg hs]
  rfl

/-- Witness for C8: two paths of a constant model with terminal value 3
and strike 1 price to mean 2 with standard error `(1/√2)·0`. -/
theorem price_call_option_mean_stderr_witness :
    price_call_option (fun _ : Unit => some 3) 1 [(), ()] =
      some (average ([(3 : ℝ), 3].map fun t => max (t - 1) 0),
        1 / Real.sqrt (([(), ()].length : ℕ) : ℝ) *
          npStd ([(3 : ℝ), 3].map fun t => max (t - 1) 0)) :=
  price_call_option_mean_stderr (fun _ : Unit => some 3) 1 [(), ()] [3, 3]
    (by simp) (by rfl)

lemma diag_runStep_var_moments {p : HestonParams} (hk : p.kappa = 0)
    (hw : p.omega = 0) {dt : ℝ} {n : ℕ} {st st' : (ℝ × ℝ) × Stats}
    {z : ℝ × ℝ}
    (h : Heston_Full_Truncation_With_Correlation_Measurement.runStep
      p dt n st z = some st') :
    st'.2.var_incr_first_mom = st.2.var_incr_first_mom ∧
    st'.2.var_incr_second_mom = st.2.var_incr_second_mom := by
  simp only [Heston_Full_Truncation_With_Correlation_Measurement.runStep,
    bind, Option.bind_eq_some, pure, Option.some.injEq] at h
  obtain ⟨zs, -, vn, hvn, ln, -, hst'⟩ := h
  have hvneq : vn = st.1.2 := by
    simp only [Heston_Full_Truncation.varStep, Option.map_eq_some'] at hvn
    obtain ⟨s, -, hs⟩ := hvn
    rw [← hs, hk, hw]
    ring
  rw [← hst']
  simp only [updateStatistics, hvneq]
  constructor <;> ring

lemma diag_foldlM_var_moments {p : HestonParams} (hk : p.kappa = 0)
    (hw : p.omega = 0) {dt : ℝ} {n : ℕ} :
    ∀ (draws : List (ℝ × ℝ)) (st st' : (ℝ × ℝ) × Stats),
      List.foldlM
        (Heston_Full_Truncation_With_Correlation_Measurement.runStep p dt n)
        st draws = some st' →
      st'.2.var_incr_first_mom = st.2.var_incr_first_mom ∧
      st'.2.var_incr_second_mom = st.2.var_incr_second_mom := by
  intro draws
  induction draws with
  | nil =>
    intro st st' h
    simp only [List.foldlM_nil, pure, Option.some.injEq] at h
    rw [h]
    exact ⟨rfl, rfl⟩
  | cons z zs ih =>
    intro st st' h
    simp only [List.foldlM_cons, bind, Option.bind_eq_some] at h
    obtain ⟨st1, h1, h2⟩ := h
    have ha := diag_runStep_var_moments hk hw h1
    have hb := ih st1 st' h2
    exact ⟨hb.1.trans ha.1, hb.2.trans ha.2⟩

lemma diag_sim_none_of_zero_vol (p : HestonParams) (num_paths : ℕ)
    (avg spot maturity : ℝ) (draws : List (ℝ × ℝ))
    (hk : p.kappa = 0) (hw : p.omega = 0) :
    Heston_Full_Truncation_With_Correlation_Measurement.simulate_stock
      p num_paths avg spot maturity draws = none := by
  rw [Heston_Full_Truncation_With_Correlation_Measurement.simulate_stock]
  by_cases he : draws.isEmpty
  · rw [if_pos he]
  · rw [if_neg he]
    cases hml : mlog spot with
    | none => simp only [bind, hml, Option.none_bind]
    | some l0 =>
      cases hfold : List.foldlM
          (Heston_Full_Truncation_With_Correlation_Measurement.runStep p
            (maturity / (draws.length : ℝ)) draws.length)
          ((l0, p.initial_variance), clearStatistics) draws with
      | none => simp only [bind, hml, Option.some_bind, hfold, Option.none_bind]
      | some st =>
        have hmom := diag_foldlM_var_moments hk hw draws
          ((l0, p.initial_variance), clearStatistics) st hfold
        have hv1 : st.2.var_incr_first_mom = 0 := hmom.1
        have hv2 : st.2.var_incr_second_mom = 0 := hmom.2
        have hcorr : calculateCorrelation st.2 = none := by
          rw [calculateCorrelation]
          cases hA : msqrt (st.2.log_asset_incr_second_mom -
              st.2.log_asset_incr_first_mom * st.2.log_asset_incr_first_mom) with
          | none => simp only [bind, hA, Option.none_bind]
          | some a =>
            have hB : st.2.var_incr_second_mom -
                st.2.var_incr_first_mom * st.2.var_incr_first_mom = 0 := by
              rw [hv1, hv2]
              ring
            simp only [bind, hA, Option.some_bind, hB,
              msqrt_of_nonneg le_rfl, Real.sqrt_zero, mul_zero, mdiv,
              if_pos rfl, if_true]
        simp only [bind, hml, Option.some_bind, hfold, hcorr, Option.none_bind]

/-- C10: on a diagnostics model whose variance increments are all
identical — as in the Black-Scholes degenerate case `κ = 0`, `ω = 0`,
where every per-step variance increment is `0` — the per-path realized
correlation divides by a zero standard deviation, so `simulate_stock`
fails with a division-by-zero error instead of returning a terminal
value. -/
theorem diagnostics_constant_increments_divzero (p : HestonParams)
    (num_paths : ℕ) (avg spot maturity : ℝ) (draws : List (ℝ × ℝ))
    (hk : p.kappa = 0) (hw : p.omega = 0) :
    Heston_Full_Truncation_With_Correlation_Measurement.simulate_stock
      p num_paths avg spot maturity draws = none :=
  diag_sim_none_of_zero_vol p num_paths avg spot maturity draws hk hw

/-- Witness for C10: a concrete degenerate diagnostics model (`κ = 0`,
`ω = 0`, other parameters non-trivial) fails on a one-step path. -/
theorem diagnostics_constant_increments_divzero_witness :
    Heston_Full_Truncation_With_Correlation_Measurement.simulate_stock
      ⟨1, 0, 2, 0, 1 / 2, 3⟩ 5 7 2 3 [(1, 2)] = none :=
  diagnostics_constant_increments_divzero ⟨1, 0, 2, 0, 1 / 2, 3⟩ 5 7 2 3
    [(1, 2)] rfl rfl

lemma diag_runStep_fst {p : HestonParams} {dt : ℝ} {n : ℕ}
    {st st' : (ℝ × ℝ) × Stats} {z : ℝ × ℝ}
    (h : Heston_Full_Truncation_With_Correlation_Measurement.runStep
      p dt n st z = some st') :
    Heston_Full_Truncation.runStep p dt st.1 z = some st'.1 := by
  simp only [Heston_Full_Truncation_With_Correlation_Measurement.runStep,
    bind, Option.bind_eq_some, pure, Option.some.injEq] at h
  obtain ⟨zs, hzs, vn, hvn, ln, hln, hst'⟩ := h
  rw [Heston_Full_Truncation.runStep]
  simp only [bind, hzs, Option.some_bind, hvn, hln, ← hst']
  rfl

lemma diag_foldlM_fst {p : HestonParams} {dt : ℝ} {n : ℕ} :
    ∀ (draws : List (ℝ × ℝ)) (st st' : (ℝ × ℝ) × Stats),
      List.foldlM
        (Heston_Full_Truncation_With_Correlation_Measurement.runStep p dt n)
        st draws = some st' →
      List.foldlM (Heston_Full_Truncation.runStep p dt) st.1 draws =
        some st'.1 := by
  intro draws
  induction draws with
  | nil =>
    intro st st' h
    simp only [List.foldlM_nil, pure, Option.some.injEq] at h
    rw [h]
    rfl
  | cons z zs ih =>
    intro st st' h
    simp only [List.foldlM_cons, bind, Option.bind_eq_some] at h
    obtain ⟨st1, h1, h2⟩ := h
    simp only [List.foldlM_cons, bind, diag_runStep_fst h1, Option.some_bind]
    exact ih st1 st' h2

/-- C9 (counterexample): on a one-step path the diagnostics model's
per-path correlation always divides by zero (a single increment has zero
standard deviation), so with identical draws and inputs the diagnostics
model fails while the plain full-truncation model returns a terminal
value: they do not return the same value. -/
theorem diagnostics_not_same_return_cex :
    Heston_Full_Truncation_With_Correlation_Measurement.simulate_stock
      ⟨0, 0, 0, 0, 0, 1⟩ 0 0 1 1 [(0, 0)] = none ∧
    Heston_Full_Truncation.simulate_stock ⟨0, 0, 0, 0, 0, 1⟩ 1 1 [(0, 0)] =
      some (Real.exp (-0.5)) := by
  constructor
  · exact diag_sim_none_of_zero_vol ⟨0, 0, 0, 0, 0, 1⟩ 0 0 1 1 [(0, 0)] rfl rfl
  · have m1 : max (1 : ℝ) 0 = 1 := max_eq_left (by norm_num)
    have hc : corrDraw (0 : ℝ) 0 0 = some 0 := by
      rw [corrDraw_of_abs_le (by norm_num : |(0 : ℝ)| ≤ 1) 0 0]
      simp
    have hlog : mlog (1 : ℝ) = some 0 := by
      simp [mlog, Real.log_one]
    have hv : Heston_Full_Truncation.varStep ⟨0, 0, 0, 0, 0, 1⟩ 1 1 0 =
        some 1 := by
      rw [ft_varStep_eq ⟨0, 0, 0, 0, 0, 1⟩ 1 1 0 (by norm_num : (0 : ℝ) ≤ 1)]
      norm_num [m1]
    have hl : Heston_Full_Truncation.logAssetStep ⟨0, 0, 0, 0, 0, 1⟩ 0 1 1 0 =
        some (-0.5) := by
      rw [ft_logStep_eq ⟨0, 0, 0, 0, 0, 1⟩ 0 1 1 0 (by norm_num : (0 : ℝ) ≤ 1)]
      norm_num [m1]
    rw [Heston_Full_Truncation.simulate_stock]
    simp only [List.isEmpty_cons, Bool.false_eq_true, if_false,
      List.length_cons, List.length_nil, zero_add, Nat.cast_one, div_one,
      List.foldlM_cons, List.foldlM_nil, bind, hlog, Option.some_bind,
      Heston_Full_Truncation.runStep, hc, hv, hl]
    rfl

/-- C9 (amended): whenever the diagnostics model's `simulate_stock`
completes (its per-path correlation computation does not divide by zero),
it returns exactly the terminal value of the plain full-truncation
model on the same draws and inputs; the moment accumulation never alters
the simulated path values, but the correlation step can fail where the
plain model succeeds. -/
theorem diagnostics_refines_full_truncation (p : HestonParams)
    (num_paths : ℕ) (avg spot maturity : ℝ) (draws : List (ℝ × ℝ))
    (r : ℝ × ℕ × ℝ)
    (h : Heston_Full_Truncation_With_Correlation_Measurement.simulate_stock
      p num_paths avg spot maturity draws = some r) :
    Heston_Full_Truncation.simulate_stock p spot maturity draws =
      some r.1 := by
  rw [Heston_Full_Truncation_With_Correlation_Measurement.simulate_stock] at h
  by_cases he : draws.isEmpty
  · rw [if_pos he] at h
    exact absurd h (by simp)
  · rw [if_neg he] at h
    simp only [bind, Option.bind_eq_some, pure, Option.some.injEq] at h
    obtain ⟨l0, hl0, st, hst, corr, hcorr, hr⟩ := h
    rw [Heston_Full_Truncation.simulate_stock, if_neg he]
    have hfold := diag_foldlM_fst draws ((l0, p.initial_variance), clearStatistics)
      st hst
    simp only [bind, hl0, Option.some_bind, hfold]
    rw [← hr]
    rfl

lemma diag_concrete_run_eval :
    Heston_Full_Truncation_With_Correlation_Measurement.simulate_stock
      ⟨0, 0, 0, 3, 0, 1⟩ 0 0 1 2 [(1, 1), (-1, 0)] =
      some (Real.exp (-1.5), 1, 1) := by
  have m1 : max (1 : ℝ) 0 = 1 := max_eq_left (by norm_num)
  have m4 : max (4 : ℝ) 0 = 4 := max_eq_left (by norm_num)
  have hs4 : Real.sqrt 4 = 2 := by
    rw [show (4 : ℝ) = 2 ^ 2 by norm_num, Real.sqrt_sq (by norm_num : (0 : ℝ) ≤ 2)]
  have hsA : Real.sqrt (25 / 16) = 5 / 4 := by
    rw [show (25 / 16 : ℝ) = (5 / 4) ^ 2 by norm_num,
      Real.sqrt_sq (by norm_num : (0 : ℝ) ≤ 5 / 4)]
  have hsA' : Real.sqrt 1.5625 = 1.25 := by
    rw [show (1.5625 : ℝ) = (1.25) ^ 2 by norm_num,
      Real.sqrt_sq (by norm_num : (0 : ℝ) ≤ 1.25)]
  have hsB : Real.sqrt (81 / 4) = 9 / 2 := by
    rw [show (81 / 4 : ℝ) = (9 / 2) ^ 2 by norm_num,
      Real.sqrt_sq (by norm_num : (0 : ℝ) ≤ 9 / 2)]
  have hsB' : Real.sqrt 20.25 = 4.5 := by
    rw [show (20.25 : ℝ) = (4.5) ^ 2 by norm_num,
      Real.sqrt_sq (by norm_num : (0 : ℝ) ≤ 4.5)]
  have hlog : mlog (1 : ℝ) = some 0 := by
    simp [mlog, Real.log_one]
  rw [Heston_Full_Truncation_With_Correlation_Measurement.simulate_stock]
  norm_num [List.foldlM_cons, List.foldlM_nil, bind, hlog,
    Heston_Full_Truncation_With_Correlation_Measurement.runStep,
    Heston_Full_Truncation.varStep, Heston_Full_Truncation.logAssetStep,
    corrDraw, updateStatistics, clearStatistics, calculateCorrelation,
    msqrt, mdiv, m1, m4, Real.sqrt_one, hs4, hsA, hsA', hsB, hsB']

/-- Witness for the amended C9: on the two-step full-truncation model with
`ω = 3`, `ρ = 0`, `V₀ = 1` and draws `(1,1), (-1,0)`, the diagnostics run
completes (its realized correlation is defined) and the plain
full-truncation model returns the very same terminal value
`exp(-1.5)`. -/
theorem diagnostics_refines_full_truncation_witness :
    Heston_Full_Truncation.simulate_stock ⟨0, 0, 0, 3, 0, 1⟩ 1 2
      [(1, 1), (-1, 0)] = some (Real.exp (-1.5)) :=
  diagnostics_refines_full_truncation ⟨0, 0, 0, 3, 0, 1⟩ 0 0 1 2
    [(1, 1), (-1, 0)] (Real.exp (-1.5), 1, 1) diag_concrete_run_eval

end AIMS2018
